import Mathlib

/-!
Shallow embedding of `flash_lib` (file `src/flash_lib.c`), a flash
translation layer for memory-mapped NOR flash, together with proofs about
its sector-header protocol.

Modelling conventions:
* Flash is a total map from physical-sector index to `Sector`.  A `Sector`
  records the four header fields (`signature : u32`, `logicalID : u16`,
  `writeCount : u16`, `id : u8`, laid out at byte offsets 0, 4, 6, 8 of the
  sector) plus `rest i`, the byte at offset `12 + i` of the sector
  (everything after the 12-byte `SectorHeader` struct; the three struct
  padding bytes at offsets 9..11 are carried by no claim and are not
  modelled).
* Machine integers are `Nat`; wherever the C code can overflow or truncate
  (the `writeCount + 1` increment on a `uint16`, the `uint16` store of a
  logical id) the embedding applies the corresponding `% 2 ^ w` / bitmask.
* `flash_range_program` can only clear bits, so programming is modelled as
  bitwise AND (`&&&`) of the old cell contents with the buffer.  Both call
  shapes in the code program a `FLASH_PAGE_SIZE` buffer built by
  `prepare_buffer_to_write` / `delete_sectors`: a 12-byte `SectorHeader`
  image followed by `0xFF` filler, so a program buffer is represented by a
  `SectorHeader` (filler bytes are implicit `0xFF`).
* Local variables that the C code leaves uninitialized before use
  (`physical_sector` in `get_physical_sector_from_logical_id` when the
  representative lookup fails, `physical_sector_address` in
  `erase_logical_sector` when `get_first_sector_from_logical_id` fails)
  are modelled by an explicit `junk : Nat` parameter standing for the
  indeterminate value.
* `rand()` is modelled by a stream `rnd : Nat → Nat` indexed by the number
  of allocator calls made so far.
-/

def FLASH_SECTOR_SIZE : Nat := 4096

def FLASH_PAGE_SIZE : Nat := 256

def XIP_BASE : Nat := 0x10000000

def MEMORY_SIGNATURE : Nat := 0x27062021

/-- Header stored at the start of every physical sector (struct `SectorHeader`). -/
structure SectorHeader where
  signature : Nat
  logicalID : Nat
  writeCount : Nat
  id : Nat
deriving Repr, DecidableEq

/-- Contents of one physical sector: the four header fields plus `rest i`,
the byte at offset `12 + i` of the sector. -/
structure Sector where
  signature : Nat
  logicalID : Nat
  writeCount : Nat
  id : Nat
  rest : Nat → Nat

/-- Flash contents: physical-sector index to sector contents. -/
def Flash : Type := Nat → Sector

/-- Fully erased sector: every byte `0xFF`, hence every field all-ones. -/
def erasedSector : Sector :=
  { signature := 0xFFFFFFFF, logicalID := 0xFFFF, writeCount := 0xFFFF,
    id := 0xFF, rest := fun _ => 0xFF }

/-- All-erased flash. -/
def erasedFlash : Flash := fun _ => erasedSector

/-- Pointwise update of flash at one physical sector. -/
def updateAt (st : Flash) (s : Nat) (sec : Sector) : Flash :=
  fun t => if t = s then sec else st t

/-- Library configuration: the globals `_lower_bound`, `_logical_sectors_count`,
`_group_by` set once by `init_flash_lib`. -/
structure Config where
  lowerBound : Nat
  logicalSectorsCount : Nat
  groupBy : Nat

/-- The global `_upper_bound = _lower_bound + _logical_sectors_count * _group_by`
computed by `init_flash_lib`. -/
def Config.upperBound (cfg : Config) : Nat :=
  cfg.lowerBound + cfg.logicalSectorsCount * cfg.groupBy

/-- The physical sectors visited by every loop of the shape
`for (s = _lower_bound; s < _upper_bound; s += _group_by)`: when `groupBy ≥ 1`
these are `lowerBound + k * groupBy` for `k < logicalSectorsCount`; when
`groupBy = 0` we have `upperBound = lowerBound` and the loop body never runs. -/
def leaders (cfg : Config) : List Nat :=
  if cfg.groupBy = 0 then []
  else (List.range cfg.logicalSectorsCount).map (fun k => cfg.lowerBound + k * cfg.groupBy)

/-- C function `get_header_attribute_from_sector`: reads the field at byte
offset 0 / 4 / 6 / 8 according to `attribute_id` (0 signature, 1 logicalID,
2 writeCount, otherwise id). -/
def get_header_attribute_from_sector (st : Flash) (physical_sector : Nat)
    (attribute_id : Nat) : Nat :=
  if attribute_id = 0 then (st physical_sector).signature
  else if attribute_id = 1 then (st physical_sector).logicalID
  else if attribute_id = 2 then (st physical_sector).writeCount
  else (st physical_sector).id

/-- C function `check_sector_signature`. -/
def check_sector_signature (st : Flash) (physical_sector : Nat) : Bool :=
  get_header_attribute_from_sector st physical_sector 0 == MEMORY_SIGNATURE

/-- Loop-body predicate of `get_first_sector_from_logical_id`: valid signature
and matching logical id. -/
def goodHeader (st : Flash) (logical_id : Nat) (s : Nat) : Bool :=
  check_sector_signature st s &&
    (get_header_attribute_from_sector st s 1 == logical_id)

/-- C function `get_first_sector_from_logical_id`: scans group leaders in
ascending order for the first valid sector whose `logicalID` matches.
`some s` models `return true` with `*physical_addr = s`; `none` models
`return false` (in which case the C code leaves `*physical_addr` untouched). -/
def get_first_sector_from_logical_id (cfg : Config) (st : Flash)
    (logical_id : Nat) : Option Nat :=
  (leaders cfg).find? (goodHeader st logical_id)

/-- Sub-sector walk loop of `get_physical_sector_from_logical_id`: up to
`fuel = _group_by` iterations; each non-matching step advances the candidate
by `FLASH_SECTOR_SIZE` (the C code adds the byte size 4096 to a variable that
holds a sector index). -/
def walkSub (st : Flash) (physical_sector_id : Nat) : Nat → Nat → Nat
  | 0, pos => pos
  | fuel + 1, pos =>
    if get_header_attribute_from_sector st pos 3 == physical_sector_id then pos
    else walkSub st physical_sector_id fuel (pos + FLASH_SECTOR_SIZE)

/-- C function `get_physical_sector_from_logical_id`.  The returned `Bool` is
the result of the representative lookup; the returned `Nat` is the value
stored through `*physical_addr`.  When the lookup fails the C local
`physical_sector` is uninitialized and the walk starts from the indeterminate
value `junk`. -/
def get_physical_sector_from_logical_id (cfg : Config) (st : Flash)
    (logical_id physical_sector_id junk : Nat) : Bool × Nat :=
  match get_first_sector_from_logical_id cfg st logical_id with
  | some ps => (true, walkSub st physical_sector_id cfg.groupBy ps)
  | none => (false, walkSub st physical_sector_id cfg.groupBy junk)

/-- C function `get_memory_addr_from_physical_sector`. -/
def get_memory_addr_from_physical_sector (physical_sector : Nat) : Nat :=
  physical_sector * FLASH_SECTOR_SIZE

/-- C function `read_sector`: note that the code passes
`physical_sector_address + physical_sector_offset` — a sector index plus a
byte offset — to `get_memory_addr_from_physical_sector`, and that it ignores
the `Bool` returned by `get_physical_sector_from_logical_id`. -/
def read_sector (cfg : Config) (st : Flash) (logical_sector offset_bytes junk : Nat) : Nat :=
  let physical_sector_id := offset_bytes / FLASH_SECTOR_SIZE
  let physical_sector_offset := offset_bytes % FLASH_SECTOR_SIZE
  let physical_sector_address :=
    (get_physical_sector_from_logical_id cfg st logical_sector physical_sector_id junk).2
  get_memory_addr_from_physical_sector (physical_sector_address + physical_sector_offset)
    + XIP_BASE

/-- Programming one header page (`flash_range_program` of a buffer whose first
12 bytes are the `SectorHeader` image `h` and whose remaining
`FLASH_PAGE_SIZE - 12` bytes are `0xFF`): each programmed bit can only be
cleared, i.e. the new cell value is old AND new. -/
def programHeaderPage (sec : Sector) (h : SectorHeader) : Sector :=
  { signature := sec.signature &&& h.signature,
    logicalID := sec.logicalID &&& h.logicalID,
    writeCount := sec.writeCount &&& h.writeCount,
    id := sec.id &&& h.id,
    rest := fun i => if 12 + i < FLASH_PAGE_SIZE then sec.rest i &&& 0xFF else sec.rest i }

/-- C function `_write_sector_by_physical_addr`: erase the sector, then
program its header page. -/
def _write_sector_by_physical_addr (st : Flash) (physical_sector_address : Nat)
    (h : SectorHeader) : Flash :=
  updateAt st physical_sector_address (programHeaderPage erasedSector h)

/-- Erasing `n` consecutive physical sectors starting at `start`
(`flash_range_erase(start * FLASH_SECTOR_SIZE, FLASH_SECTOR_SIZE * n)`). -/
def eraseRange (st : Flash) (start n : Nat) : Flash :=
  fun s => if start ≤ s ∧ s < start + n then erasedSector else st s

/-- Programming the clean header buffer of `delete_sectors` onto one sector:
bytes 0..11 of the buffer are `0x00` (the whole `SectorHeader` struct, fields
AND 0 = 0), bytes 12..255 are `0xFF`. -/
def programCleanHeader (st : Flash) (physical_sector : Nat) : Flash :=
  updateAt st physical_sector (programHeaderPage (st physical_sector) ⟨0, 0, 0, 0⟩)

/-- C function `delete_sectors`. -/
def delete_sectors (st : Flash) (begin_ end_ : Nat) : Flash :=
  (List.range' begin_ (end_ - begin_)).foldl programCleanHeader st

/-- C function `delete_sector`. -/
def delete_sector (st : Flash) (physical_sector : Nat) : Flash :=
  delete_sectors st physical_sector (physical_sector + 1)

/-- C function `delete_all_sectors`. -/
def delete_all_sectors (cfg : Config) (st : Flash) : Flash :=
  delete_sectors st cfg.lowerBound cfg.upperBound

/-- C function `read_and_update_header`: copy the header out of flash and
increment its `writeCount` (a `uint16`, hence modulo `2 ^ 16`). -/
def read_and_update_header (st : Flash) (physical_sector_id : Nat) : SectorHeader :=
  { signature := (st physical_sector_id).signature,
    logicalID := (st physical_sector_id).logicalID,
    writeCount := ((st physical_sector_id).writeCount + 1) % 65536,
    id := (st physical_sector_id).id }

/-- C function `_get_random_physical_sector` with the drawn `rand()` value
passed in as `rnd`.  Scans upward from the random start, then downward from
one below it.  `none` models the missing-return path (no free sector: the C
function falls off the end, which is undefined behaviour); the guard for
`upperBound ≤ lowerBound` models the division by zero in `rand() % 0`, also
undefined.  The `Nat` scan matches the C `uint16` loops whenever
`1 ≤ lowerBound` and `upperBound ≤ 65536` (otherwise the C index arithmetic
wraps). -/
def _get_random_physical_sector (cfg : Config) (st : Flash) (rnd : Nat) : Option Nat :=
  if cfg.upperBound ≤ cfg.lowerBound then none
  else
    let start := rnd % (cfg.upperBound - cfg.lowerBound) + cfg.lowerBound
    match (List.range' start (cfg.upperBound - start)).find?
        (fun s => !check_sector_signature st s) with
    | some s => some s
    | none =>
      ((List.range' cfg.lowerBound (start - cfg.lowerBound)).reverse).find?
        (fun s => !check_sector_signature st s)

/-- Header written for a freshly initialized logical sector in `init_sectors`:
designated initializer with `.id` omitted (zero-initialized); the `uint16`
store truncates the loop counter. -/
def initHeader (logical_id : Nat) : SectorHeader :=
  { signature := MEMORY_SIGNATURE, logicalID := logical_id % 65536,
    writeCount := 1, id := 0 }

/-- One iteration of the validation sweep of `init_sectors`: an invalid
signature counts the sector as uninitialized; a valid signature with
`logicalID >= _logical_sectors_count` deletes the sector and counts it. -/
def sweepStep (cfg : Config) (acc : Flash × Nat) (s : Nat) : Flash × Nat :=
  if ¬ check_sector_signature acc.1 s then (acc.1, acc.2 + 1)
  else if cfg.logicalSectorsCount ≤ get_header_attribute_from_sector acc.1 s 1 then
    (delete_sector acc.1 s, acc.2 + 1)
  else acc

/-- Validation sweep of `init_sectors` over all group leaders, yielding the
swept flash and `unitialized_sectors_count`. -/
def sweep (cfg : Config) (st : Flash) : Flash × Nat :=
  (leaders cfg).foldl (sweepStep cfg) (st, 0)

/-- Gap-fill loop of `init_sectors` over the remaining logical ids, threading
the flash, the remaining `unitialized_sectors_count` and the number of
allocator calls made so far.  A logical id that already resolves is skipped;
otherwise a fresh sector is allocated and written, the counter is
decremented, and the loop breaks when it reaches zero.  The allocator's
no-free-sector case is undefined behaviour in C (missing return); it is
modelled as stopping, and is unreachable in every theorem below. -/
def gapFillGo (cfg : Config) (rnd : Nat → Nat) :
    List Nat → Flash → Nat → Nat → Flash × Nat × Nat
  | [], st, u, a => (st, u, a)
  | logical_id :: rest, st, u, a =>
    if (get_first_sector_from_logical_id cfg st logical_id).isSome then
      gapFillGo cfg rnd rest st u a
    else
      match _get_random_physical_sector cfg st (rnd a) with
      | none => (st, u, a)
      | some s =>
        let st' := _write_sector_by_physical_addr st s (initHeader logical_id)
        if u - 1 = 0 then (st', u - 1, a + 1)
        else gapFillGo cfg rnd rest st' (u - 1) (a + 1)

/-- C function `init_sectors`: validation sweep, early return when nothing
needs initialization, otherwise gap fill over logical ids `0..count`. -/
def init_sectors (cfg : Config) (rnd : Nat → Nat) (st : Flash) : Flash :=
  let r := sweep cfg st
  if r.2 = 0 then r.1
  else (gapFillGo cfg rnd (List.range cfg.logicalSectorsCount) r.1 r.2 0).1

/-- C function `erase_logical_sector`: first loop reads and bumps every
sub-sector header (resolving each through
`get_physical_sector_from_logical_id`), then the whole group is erased
starting at the representative, then the second loop re-resolves each
sub-sector in the post-erase flash and programs the saved header there.
When `get_first_sector_from_logical_id` fails, the C address variables are
uninitialized; both are modelled by `junk`. -/
def erase_logical_sector (cfg : Config) (st : Flash) (logical_sector junk : Nat) : Flash :=
  let hdrs := (List.range cfg.groupBy).map (fun i =>
    read_and_update_header st
      (get_physical_sector_from_logical_id cfg st logical_sector i junk).2)
  let rep := (get_first_sector_from_logical_id cfg st logical_sector).getD junk
  let st1 := eraseRange st rep cfg.groupBy
  (List.range cfg.groupBy).foldl (fun st2 i =>
    let addr := (get_physical_sector_from_logical_id cfg st2 logical_sector i junk).2
    updateAt st2 addr (programHeaderPage (st2 addr) (hdrs.getD i ⟨0, 0, 0, 0⟩))) st1

/-- C function `erase_physical_sector`: resolve the sub-sector, erase it, and
only then read (from the just-erased flash) and bump the header before
reprogramming it. -/
def erase_physical_sector (cfg : Config) (st : Flash)
    (logical_sector physical_sector_id junk : Nat) : Flash :=
  let addr :=
    (get_physical_sector_from_logical_id cfg st logical_sector physical_sector_id junk).2
  let st1 := eraseRange st addr 1
  let h := read_and_update_header st1 addr
  updateAt st1 addr (programHeaderPage (st1 addr) h)

/-- Modelled from the spec (section 4.7): `resolveReadAddress` as the spec
words it — base address plus resolved physical sector times
`physicalSectorSize` plus the intra-sector offset.  Used only to compare the
spec's reading of `read_sector` with the code's actual address arithmetic. -/
def resolveReadAddress_specModel (cfg : Config) (st : Flash)
    (logical_sector offset_bytes junk : Nat) : Nat :=
  let physical_sector_id := offset_bytes / FLASH_SECTOR_SIZE
  let physical_sector_offset := offset_bytes % FLASH_SECTOR_SIZE
  let physical_sector_address :=
    (get_physical_sector_from_logical_id cfg st logical_sector physical_sector_id junk).2
  get_memory_addr_from_physical_sector physical_sector_address
    + physical_sector_offset + XIP_BASE

/-! ### Basic facts about the embedding -/

/-- Sector contents as produced by a header write on an erased sector:
valid signature, given logical id, write count and sub-sector index,
every payload byte `0xFF`. -/
def writtenSector (lid wc sid : Nat) : Sector :=
  { signature := MEMORY_SIGNATURE, logicalID := lid, writeCount := wc,
    id := sid, rest := fun _ => 0xFF }

theorem updateAt_self (st : Flash) (s : Nat) (sec : Sector) :
    updateAt st s sec s = sec := by
  simp [updateAt]

theorem updateAt_other (st : Flash) (s : Nat) (sec : Sector) (t : Nat) (h : t ≠ s) :
    updateAt st s sec t = st t := by
  simp [updateAt, h]

theorem land_mask16 (x : Nat) : 0xFFFF &&& x % 65536 = x % 65536 := by
  rw [Nat.land_comm]
  have h : (0xFFFF : Nat) = 2 ^ 16 - 1 := by norm_num
  rw [h, Nat.and_pow_two_sub_one_eq_mod]
  omega

theorem land_mask8 (x : Nat) (h : x ≤ 255) : x &&& 0xFF = x := by
  have h2 : (0xFF : Nat) = 2 ^ 8 - 1 := by norm_num
  rw [h2, Nat.and_pow_two_sub_one_eq_mod]
  omega

/-- Writing `initHeader j` onto an erased sector yields exactly the
library-written sector with logical id `j % 65536`. -/
theorem programHeaderPage_erased_initHeader (j : Nat) :
    programHeaderPage erasedSector (initHeader j) = writtenSector (j % 65536) 1 0 := by
  unfold programHeaderPage erasedSector initHeader writtenSector
  simp only [Sector.mk.injEq]
  refine ⟨by decide, land_mask16 j, by decide, by decide, ?_⟩
  funext i
  by_cases h : 12 + i < FLASH_PAGE_SIZE <;> simp [h]

theorem check_writtenSector (st : Flash) (s : Nat) (lid wc sid : Nat)
    (h : st s = writtenSector lid wc sid) :
    check_sector_signature st s = true := by
  simp [check_sector_signature, get_header_attribute_from_sector, h, writtenSector]

theorem check_erased (st : Flash) (s : Nat) (h : st s = erasedSector) :
    check_sector_signature st s = false := by
  simp [check_sector_signature, get_header_attribute_from_sector, h, erasedSector]
  decide

/-- The walk of `get_physical_sector_from_logical_id` never moves backwards. -/
theorem walkSub_ge (st : Flash) (sid : Nat) :
    ∀ fuel pos, pos ≤ walkSub st sid fuel pos := by
  intro fuel
  induction fuel with
  | zero => intro pos; simp [walkSub]
  | succ n ih =>
    intro pos
    unfold walkSub
    split
    · exact Nat.le_refl pos
    · exact Nat.le_trans (by omega) (ih (pos + FLASH_SECTOR_SIZE))

/-- The walk advances at most `fuel` steps of `FLASH_SECTOR_SIZE`. -/
theorem walkSub_le (st : Flash) (sid : Nat) :
    ∀ fuel pos, walkSub st sid fuel pos ≤ pos + fuel * FLASH_SECTOR_SIZE := by
  intro fuel
  induction fuel with
  | zero => intro pos; simp [walkSub]
  | succ n ih =>
    intro pos
    unfold walkSub
    have hmul : (n + 1) * FLASH_SECTOR_SIZE = n * FLASH_SECTOR_SIZE + FLASH_SECTOR_SIZE :=
      Nat.succ_mul n FLASH_SECTOR_SIZE
    split
    · omega
    · have := ih (pos + FLASH_SECTOR_SIZE)
      omega

/-! ### Concrete fixtures shared by several claims -/

/-- Minimal configuration: one logical sector of one physical sector at
lower bound 1. -/
def cfg111 : Config := ⟨1, 1, 1⟩

/-- Flash holding one previously written sector: logical id 0, write count 5,
sub-sector index 0 at physical sector 1; everything else erased. -/
def stOne : Flash := updateAt erasedFlash 1 (writtenSector 0 5 0)

theorem get_first_cfg111_none (st : Flash) (h : check_sector_signature st 1 = false) :
    get_first_sector_from_logical_id cfg111 st 0 = none := by
  have hl : leaders cfg111 = [1] := by decide
  have hg : ¬ goodHeader st 0 1 = true := by simp [goodHeader, h]
  unfold get_first_sector_from_logical_id
  rw [hl]
  rw [List.find?_cons_of_neg _ hg]
  rw [List.find?_nil]

/-- C1 (code bug in `erase_logical_sector`): the second loop re-resolves the
physical address only after the group has been erased, so the representative
lookup fails and the refreshed header is programmed at an address derived
from an uninitialized variable (`junk + FLASH_SECTOR_SIZE` here).  On a fully
mapped group (logical id 0 at physical sector 1, valid header, sub-sector 0),
after `erase_logical_sector(0)` the representative lookup finds nothing at
all (here the uninitialized variable is instantiated with 0; the header ends
up programmed at sector `0 + FLASH_SECTOR_SIZE`, outside the managed range),
contradicting the claim that it still resolves to a sector with the same
logical id and `writeCount` incremented. -/
theorem erase_logical_sector_loses_identity :
    check_sector_signature stOne 1 = true ∧
    (stOne 1).logicalID = 0 ∧ (stOne 1).writeCount = 5 ∧
    get_first_sector_from_logical_id cfg111 stOne 0 = some 1 ∧
    get_first_sector_from_logical_id cfg111 (erase_logical_sector cfg111 stOne 0 0) 0 = none := by
  decide

/-- Flash with one written sector whose payload bytes hold data `0xAB`:
logical id 0, write count 5, sub-sector index 0 at physical sector 1. -/
def stPayload : Flash :=
  updateAt erasedFlash 1
    { signature := MEMORY_SIGNATURE, logicalID := 0, writeCount := 5, id := 0,
      rest := fun _ => 0xAB }

/-- C2 (code bug in `erase_physical_sector`): the function erases the sector
first and only then calls `read_and_update_header` on it, so the header it
reprograms is read from just-erased (all-ones) flash: the resulting sector
has signature `0xFFFFFFFF` (invalid, not the magic value), logical id
`0xFFFF` (not 0), write count `(0xFFFF + 1) mod 2^16 = 0` (not 5 + 1 = 6)
and sub-sector index `0xFF` (not 0).  Only the payload-reset part of the
claim holds. -/
theorem erase_physical_sector_destroys_header :
    check_sector_signature stPayload 1 = true ∧
    (stPayload 1).logicalID = 0 ∧ (stPayload 1).writeCount = 5 ∧
    ((erase_physical_sector cfg111 stPayload 0 0 0) 1).signature = 0xFFFFFFFF ∧
    ((erase_physical_sector cfg111 stPayload 0 0 0) 1).logicalID = 0xFFFF ∧
    ((erase_physical_sector cfg111 stPayload 0 0 0) 1).writeCount = 0 ∧
    ((erase_physical_sector cfg111 stPayload 0 0 0) 1).id = 0xFF ∧
    check_sector_signature (erase_physical_sector cfg111 stPayload 0 0 0) 1 = false ∧
    ((erase_physical_sector cfg111 stPayload 0 0 0) 1).rest 0 = 0xFF ∧
    ((erase_physical_sector cfg111 stPayload 0 0 0) 1).rest 4000 = 0xFF := by
  decide

/-- C3 (code bug in `read_sector`): the code passes
`physical_sector_address + physical_sector_offset` to
`get_memory_addr_from_physical_sector`, multiplying the intra-sector byte
offset by `FLASH_SECTOR_SIZE` as well.  For logical id 0 (resolved to
physical sector 1) and byte offset 1 the code returns
`XIP_BASE + (1 + 1) * 4096` instead of the address the claim specifies,
`XIP_BASE + 1 * 4096 + 1` (computed by `resolveReadAddress_specModel`). -/
theorem read_sector_offset_address_bug :
    read_sector cfg111 stOne 0 1 0 = XIP_BASE + 2 * 4096 ∧
    resolveReadAddress_specModel cfg111 stOne 0 1 0 = XIP_BASE + 4096 + 1 ∧
    read_sector cfg111 stOne 0 1 0 ≠ resolveReadAddress_specModel cfg111 stOne 0 1 0 := by
  decide

/-- Configuration with one logical sector grouping two physical sectors. -/
def cfg122 : Config := ⟨1, 1, 2⟩

/-- Flash for `cfg122` with a fully mapped group: sub-sector 0 at physical
sector 1 and sub-sector 1 at physical sector 2, both valid with logical id 0. -/
def stGroup : Flash :=
  updateAt (updateAt erasedFlash 1 (writtenSector 0 5 0)) 2 (writtenSector 0 7 1)

/-- C4 (code bug in `get_physical_sector_from_logical_id`): the walk advances
by `FLASH_SECTOR_SIZE` (4096) instead of by one physical-sector index, so
with the representative at sector 1 and the sub-sector-1 header sitting at
sector 2, looking up sub-sector 1 skips right past it and returns
`1 + 2 * 4096 = 8193` (with the success flag still true), not sector 2. -/
theorem find_sub_sector_steps_by_byte_size :
    (stGroup 2).id = 1 ∧ check_sector_signature stGroup 2 = true ∧
    get_physical_sector_from_logical_id cfg122 stGroup 0 1 0 = (true, 8193) ∧
    (8193 : Nat) ≠ 2 := by
  decide

/-- Flash with one written sector carrying a nonzero logical id 3. -/
def stLidThree : Flash := updateAt erasedFlash 1 (writtenSector 3 5 0)

/-- C9 counterexample: `delete_sectors` programs zero over the whole 12-byte
`SectorHeader` struct, not only over the 4-byte signature field.  After
deleting a sector whose header carried logical id 3, the `logicalID` field
(header-page bytes 4..5, after the signature field) reads 0 — it is neither
left in the erased all-ones state `0xFFFF` nor left at its old value 3. -/
theorem delete_sector_zeroes_beyond_signature :
    ((delete_sector stLidThree 1) 1).signature = 0 ∧
    ((delete_sector stLidThree 1) 1).logicalID = 0 ∧
    ((delete_sector stLidThree 1) 1).logicalID ≠ 0xFFFF ∧
    ((delete_sector stLidThree 1) 1).writeCount = 0 ∧
    ((delete_sector stLidThree 1) 1).id = 0 ∧
    check_sector_signature (delete_sector stLidThree 1) 1 = false := by
  decide

/-- First initialization run for `cfg122` on all-erased flash, with a random
draw that makes the allocator pick physical sector 2 (a non-leader position:
the scans of `init_sectors` and `get_first_sector_from_logical_id` step by
`_group_by = 2` and only ever visit sector 1). -/
def stRunOne : Flash := init_sectors cfg122 (fun _ => 1) erasedFlash

/-- Second initialization run with identical configuration. -/
def stRunTwo : Flash := init_sectors cfg122 (fun _ => 0) stRunOne

/-- C5 counterexample: with `groupBy = 2` the first run places the logical
id 0 header at physical sector 2, which the leader scan (stepping by
`groupBy`) never visits; the second run with identical configuration
therefore counts logical id 0 as uninitialized again, allocates a fresh
sector and programs a second header at sector 1 — not zero allocations and
not zero writes, and the flash contents change. -/
theorem init_sectors_second_run_writes :
    check_sector_signature stRunOne 2 = true ∧
    (stRunOne 2).logicalID = 0 ∧
    check_sector_signature stRunOne 1 = false ∧
    check_sector_signature stRunTwo 1 = true ∧
    (stRunTwo 1).logicalID = 0 ∧
    (stRunTwo 2).logicalID = 0 := by
  decide

/-- Cold-boot configuration of the spec scenario: lower bound 100, ten
logical sectors, group size 1. -/
def cfgTen : Config := ⟨100, 10, 1⟩

/-- Shrunk configuration: same lower bound, five logical sectors. -/
def cfgFive : Config := ⟨100, 5, 1⟩

/-- Cold boot of `cfgTen` on all-erased flash with the random stream
`0, 1, 2, ...`, which places logical id `j` at physical sector `100 + j`. -/
def stColdTen : Flash := init_sectors cfgTen (fun k => k) erasedFlash

/-- Re-initialization of the cold-booted flash with `cfgFive`. -/
def stShrinkFive : Flash := init_sectors cfgFive (fun _ => 0) stColdTen

/-- C8 counterexample: after the cold boot places logical ids 0..9 at
sectors 100..109, re-initializing with `logicalSectorCount = 5` shrinks
`upperBound` to 105, so the validation sweep scans only sectors 100..104 —
all of which hold in-range ids 0..4.  The five sectors 105..109 whose
logical id is `>= 5` lie outside the new address space, are never visited,
and keep their valid signatures: the sweep invalidates none of them,
contradicting the claim that exactly those five sectors are invalidated. -/
theorem shrink_reinit_leaves_stale_sectors_valid :
    (stColdTen 105).logicalID = 5 ∧
    check_sector_signature stColdTen 105 = true ∧
    check_sector_signature stShrinkFive 105 = true ∧
    (stShrinkFive 105).logicalID = 5 ∧
    check_sector_signature stShrinkFive 109 = true ∧
    (stShrinkFive 109).logicalID = 9 := by
  decide

/-- C10: when no valid header matches a logical id,
`get_first_sector_from_logical_id` returns false without writing the out
parameter, so `get_physical_sector_from_logical_id` walks from its
uninitialized local (`junk`), stores the junk-derived address anyway, and
returns false; `read_sector` ignores the boolean entirely and returns an
address computed from that junk-derived value (last conjunct: two different
junk values give two different stored addresses, so the result really does
depend on the indeterminate value; there is no failure signal in
`read_sector`'s result). -/
theorem unresolved_lookup_propagates_junk (cfg : Config) (st : Flash)
    (lid sid off junk : Nat)
    (h : get_first_sector_from_logical_id cfg st lid = none) :
    (get_physical_sector_from_logical_id cfg st lid sid junk).1 = false ∧
    (get_physical_sector_from_logical_id cfg st lid sid junk).2
      = walkSub st sid cfg.groupBy junk ∧
    read_sector cfg st lid off junk
      = (walkSub st (off / FLASH_SECTOR_SIZE) cfg.groupBy junk + off % FLASH_SECTOR_SIZE)
          * FLASH_SECTOR_SIZE + XIP_BASE ∧
    walkSub st sid cfg.groupBy 0
      ≠ walkSub st sid cfg.groupBy (cfg.groupBy * FLASH_SECTOR_SIZE + 1) := by
  have hg2 : ∀ psid junk2, get_physical_sector_from_logical_id cfg st lid psid junk2
      = (false, walkSub st psid cfg.groupBy junk2) := by
    intro psid junk2
    unfold get_physical_sector_from_logical_id
    rw [h]
  refine ⟨by rw [hg2], by rw [hg2], ?_, ?_⟩
  · unfold read_sector
    simp only [hg2]
    simp [get_memory_addr_from_physical_sector]
  · have h1 := walkSub_le st sid cfg.groupBy 0
    have h2 := walkSub_ge st sid cfg.groupBy (cfg.groupBy * FLASH_SECTOR_SIZE + 1)
    omega

/-- Witness for `unresolved_lookup_propagates_junk` at a concrete input:
all-erased flash, logical id 0 unmapped, junk value 42, byte offset 5. -/
theorem unresolved_lookup_propagates_junk_witness :
    get_first_sector_from_logical_id cfg111 erasedFlash 0 = none ∧
    ((get_physical_sector_from_logical_id cfg111 erasedFlash 0 0 42).1 = false ∧
     (get_physical_sector_from_logical_id cfg111 erasedFlash 0 0 42).2
       = walkSub erasedFlash 0 cfg111.groupBy 42 ∧
     read_sector cfg111 erasedFlash 0 5 42
       = (walkSub erasedFlash (5 / FLASH_SECTOR_SIZE) cfg111.groupBy 42
            + 5 % FLASH_SECTOR_SIZE) * FLASH_SECTOR_SIZE + XIP_BASE ∧
     walkSub erasedFlash 0 cfg111.groupBy 0
       ≠ walkSub erasedFlash 0 cfg111.groupBy (cfg111.groupBy * FLASH_SECTOR_SIZE + 1)) :=
  ⟨by decide, unresolved_lookup_propagates_junk cfg111 erasedFlash 0 0 5 42 (by decide)⟩

/-- C7: whenever some physical sector in `[lowerBound, upperBound)` does not
carry a valid signature, the allocator returns a sector (no undefined
fall-through) that was invalid immediately before the call and lies within
the managed range — a valid-signature sector is never selected, for every
random draw. -/
theorem allocator_never_returns_valid (cfg : Config) (st : Flash) (rnd : Nat)
    (hfree : ∃ s, cfg.lowerBound ≤ s ∧ s < cfg.upperBound ∧
      check_sector_signature st s = false) :
    ∃ s', _get_random_physical_sector cfg st rnd = some s' ∧
      check_sector_signature st s' = false ∧
      cfg.lowerBound ≤ s' ∧ s' < cfg.upperBound := by
  obtain ⟨s, hls, hsu, hinv⟩ := hfree
  have hlt : cfg.lowerBound < cfg.upperBound := by omega
  have hmod : rnd % (cfg.upperBound - cfg.lowerBound) < cfg.upperBound - cfg.lowerBound :=
    Nat.mod_lt _ (by omega)
  unfold _get_random_physical_sector
  rw [if_neg (by omega)]
  set start := rnd % (cfg.upperBound - cfg.lowerBound) + cfg.lowerBound with hstart
  have hstart_lb : cfg.lowerBound ≤ start := by omega
  have hstart_ub : start < cfg.upperBound := by omega
  cases hup : (List.range' start (cfg.upperBound - start)).find?
      (fun t => !check_sector_signature st t) with
  | some x =>
    refine ⟨x, by simp [hup], ?_, ?_⟩
    · have hx := List.find?_some hup
      simpa using hx
    · have hmem := List.mem_of_find?_eq_some hup
      rw [List.mem_range'_1] at hmem
      omega
  | none =>
    cases hdown : ((List.range' cfg.lowerBound (start - cfg.lowerBound)).reverse).find?
        (fun t => !check_sector_signature st t) with
    | some x =>
      refine ⟨x, by simp [hup, hdown], ?_, ?_⟩
      · have hx := List.find?_some hdown
        simpa using hx
      · have hmem := List.mem_of_find?_eq_some hdown
        rw [List.mem_reverse, List.mem_range'_1] at hmem
        omega
    | none =>
      exfalso
      by_cases hcase : start ≤ s
      · have hmem : s ∈ List.range' start (cfg.upperBound - start) := by
          rw [List.mem_range'_1]
          omega
        have hval := List.find?_eq_none.mp hup s hmem
        simp [hinv] at hval
      · have hmem : s ∈ (List.range' cfg.lowerBound (start - cfg.lowerBound)).reverse := by
          rw [List.mem_reverse, List.mem_range'_1]
          omega
        have hval := List.find?_eq_none.mp hdown s hmem
        simp [hinv] at hval

/-- Witness for `allocator_never_returns_valid`: all-erased flash under
`cfg111`, random draw 0. -/
theorem allocator_never_returns_valid_witness :
    ∃ s', _get_random_physical_sector cfg111 erasedFlash 0 = some s' ∧
      check_sector_signature erasedFlash s' = false ∧
      cfg111.lowerBound ≤ s' ∧ s' < cfg111.upperBound :=
  allocator_never_returns_valid cfg111 erasedFlash 0 ⟨1, by decide, by decide, by decide⟩

/-! ### Characterization of the validation sweep -/


theorem delete_sector_eq (st : Flash) (s : Nat) :
    delete_sector st s = programCleanHeader st s := by
  unfold delete_sector delete_sectors
  rw [show s + 1 - s = 1 from by omega]
  rfl

def sweepPoint (cfg : Config) (st : Flash) (s : Nat) : Sector :=
  if check_sector_signature st s = true then
    (if cfg.logicalSectorsCount ≤ get_header_attribute_from_sector st s 1 then
      programHeaderPage (st s) ⟨0, 0, 0, 0⟩
    else st s)
  else st s

def badLeader (cfg : Config) (st : Flash) (s : Nat) : Bool :=
  !check_sector_signature st s ||
    decide (cfg.logicalSectorsCount ≤ get_header_attribute_from_sector st s 1)

theorem badLeader_congr (cfg : Config) (st st' : Flash) (t : Nat) (h : st' t = st t) :
    badLeader cfg st' t = badLeader cfg st t := by
  simp [badLeader, check_sector_signature, get_header_attribute_from_sector, h]

theorem sweepPoint_congr (cfg : Config) (st st' : Flash) (t : Nat) (h : st' t = st t) :
    sweepPoint cfg st' t = sweepPoint cfg st t := by
  simp only [sweepPoint, check_sector_signature, get_header_attribute_from_sector, h]

theorem flash_eta_update (st : Flash) (a : Nat) :
    st = fun t => if t = a then st a else st t := by
  funext t
  by_cases ht : t = a
  · subst ht
    simp
  · simp [ht]

theorem sweepStep_char (cfg : Config) (st : Flash) (u : Nat) (a : Nat) :
    sweepStep cfg (st, u) a
      = (fun t => if t = a then sweepPoint cfg st a else st t,
         u + (if badLeader cfg st a then 1 else 0)) := by
  by_cases h1 : check_sector_signature st a = true
  · by_cases h2 : cfg.logicalSectorsCount ≤ get_header_attribute_from_sector st a 1
    · have hpt : sweepPoint cfg st a = programHeaderPage (st a) ⟨0, 0, 0, 0⟩ := by
        simp [sweepPoint, h1, h2]
      have hbad : badLeader cfg st a = true := by simp [badLeader, h2]
      have hstep : sweepStep cfg (st, u) a = (delete_sector st a, u + 1) := by
        simp [sweepStep, h1, h2]
      rw [hstep, delete_sector_eq, hbad]
      simp only [if_true, hpt]
      rfl
    · have hpt : sweepPoint cfg st a = st a := by simp [sweepPoint, h1, h2]
      have hbad : badLeader cfg st a = false := by simp [badLeader, h1, h2]
      have hstep : sweepStep cfg (st, u) a = (st, u) := by simp [sweepStep, h1, h2]
      rw [hstep, hbad]
      simp only [if_false, Nat.add_zero, hpt]
      exact congrArg (fun f => (f, u)) (flash_eta_update st a)
  · have hpt : sweepPoint cfg st a = st a := by simp [sweepPoint, h1]
    have hbad : badLeader cfg st a = true := by
      have hc : check_sector_signature st a = false := by
        cases hcb : check_sector_signature st a
        · rfl
        · exact absurd hcb h1
      simp [badLeader, hc]
    have hstep : sweepStep cfg (st, u) a = (st, u + 1) := by simp [sweepStep, h1]
    rw [hstep, hbad]
    simp only [if_true, hpt]
    exact congrArg (fun f => (f, u + 1)) (flash_eta_update st a)

theorem sweep_go (cfg : Config) :
    ∀ (L : List Nat), L.Nodup → ∀ (st : Flash) (u : Nat),
      (∀ t, t ∉ L → (L.foldl (sweepStep cfg) (st, u)).1 t = st t) ∧
      (∀ t, t ∈ L → (L.foldl (sweepStep cfg) (st, u)).1 t = sweepPoint cfg st t) ∧
      (L.foldl (sweepStep cfg) (st, u)).2 = u + L.countP (badLeader cfg st) := by
  intro L
  induction L with
  | nil =>
    intro _ st u
    refine ⟨fun t _ => rfl, fun t ht => absurd ht (List.not_mem_nil t), by simp⟩
  | cons a L2 ih =>
    intro hnd st u
    obtain ⟨ha, hnd2⟩ := List.nodup_cons.mp hnd
    rw [List.foldl_cons, sweepStep_char]
    obtain ⟨ihf, ihp, ihc⟩ := ih hnd2 (fun t => if t = a then sweepPoint cfg st a else st t)
      (u + (if badLeader cfg st a then 1 else 0))
    have hagree : ∀ t, t ≠ a →
        (fun t => if t = a then sweepPoint cfg st a else st t) t = st t := by
      intro t ht
      simp [ht]
    refine ⟨?_, ?_, ?_⟩
    · intro t htn
      have ht2 : t ∉ L2 := fun hx => htn (List.mem_cons_of_mem a hx)
      have hta : t ≠ a := fun hx => htn (by rw [hx]; exact List.mem_cons_self a L2)
      rw [ihf t ht2]
      exact hagree t hta
    · intro t htm
      rcases List.mem_cons.mp htm with hta | htL
      · subst hta
        rw [ihf t ha]
        simp
      · have hta : t ≠ a := fun hx => ha (hx ▸ htL)
        rw [ihp t htL]
        exact sweepPoint_congr cfg st _ t (hagree t hta)
    · rw [ihc, List.countP_cons]
      have hcngr : L2.countP (badLeader cfg (fun t => if t = a then sweepPoint cfg st a else st t))
          = L2.countP (badLeader cfg st) := by
        apply List.countP_congr
        intro x hx
        have hxa : x ≠ a := fun hh => ha (hh ▸ hx)
        rw [badLeader_congr cfg st _ x (hagree x hxa)]
      rw [hcngr]
      by_cases hb : badLeader cfg st a = true
      · simp [hb]
        omega
      · simp [hb]

theorem leaders_nodup (cfg : Config) : (leaders cfg).Nodup := by
  unfold leaders
  split
  · exact List.nodup_nil
  · rename_i hg
    refine List.Nodup.map ?_ (List.nodup_range _)
    intro x y hxy
    have h2 : cfg.lowerBound + x * cfg.groupBy = cfg.lowerBound + y * cfg.groupBy := hxy
    have h3 : x * cfg.groupBy = y * cfg.groupBy := Nat.add_left_cancel h2
    exact Nat.eq_of_mul_eq_mul_right (Nat.pos_of_ne_zero hg) h3

theorem sweep_char (cfg : Config) (st : Flash) :
    (∀ t, t ∉ leaders cfg → (sweep cfg st).1 t = st t) ∧
    (∀ t, t ∈ leaders cfg → (sweep cfg st).1 t = sweepPoint cfg st t) ∧
    (sweep cfg st).2 = (leaders cfg).countP (badLeader cfg st) := by
  have h := sweep_go cfg (leaders cfg) (leaders_nodup cfg) st 0
  simpa [sweep] using h

/-- C8 (amended): during the validation sweep every group-leader sector
*within the current address space* that carries a valid signature but a
logical id `>= logicalSectorCount` is invalidated (signature forced to 0,
classifying it invalid) and counted as needing initialization, while a
leader with a valid in-range header is left untouched; the sweep visits only
`leaders cfg`, so sectors beyond the current `upperBound` (as in the shrink
scenario) are never examined.  The final conjunct states that the
uninitialized count is exactly the number of visited sectors that are
invalid or stale. -/
theorem sweep_invalidates_stale_in_range_leaders (cfg : Config) (st : Flash) (s : Nat)
    (hmem : s ∈ leaders cfg) :
    (check_sector_signature st s = true →
      cfg.logicalSectorsCount ≤ get_header_attribute_from_sector st s 1 →
        (((sweep cfg st).1 s).signature = 0 ∧
         check_sector_signature (sweep cfg st).1 s = false ∧
         badLeader cfg st s = true)) ∧
    (check_sector_signature st s = true →
      get_header_attribute_from_sector st s 1 < cfg.logicalSectorsCount →
        (sweep cfg st).1 s = st s) ∧
    (sweep cfg st).2 = (leaders cfg).countP (badLeader cfg st) := by
  obtain ⟨hf, hp, hc⟩ := sweep_char cfg st
  have hs := hp s hmem
  refine ⟨?_, ?_, hc⟩
  · intro h1 h2
    have hval : ((sweep cfg st).1 s) = programHeaderPage (st s) ⟨0, 0, 0, 0⟩ := by
      rw [hs]
      simp [sweepPoint, h1, h2]
    have hsig : ((sweep cfg st).1 s).signature = 0 := by
      rw [hval]
      simp [programHeaderPage]
    refine ⟨hsig, ?_, ?_⟩
    · simp [check_sector_signature, get_header_attribute_from_sector, hsig, MEMORY_SIGNATURE]
    · simp [badLeader, h2]
  · intro h1 h2
    rw [hs]
    simp [sweepPoint, h1]
    intro hcon
    omega

theorem sweep_invalidates_stale_witness :
    ((sweep cfg111 stLidThree).1 1).signature = 0 ∧
    check_sector_signature (sweep cfg111 stLidThree).1 1 = false ∧
    badLeader cfg111 stLidThree 1 = true ∧
    (sweep cfg111 stLidThree).2
      = (leaders cfg111).countP (badLeader cfg111 stLidThree) := by
  obtain ⟨h1, _, h3⟩ :=
    sweep_invalidates_stale_in_range_leaders cfg111 stLidThree 1 (by decide)
  obtain ⟨a, b, c⟩ := h1 (by decide) (by decide)
  exact ⟨a, b, c, h3⟩

theorem delete_go :
    ∀ (L : List Nat), L.Nodup → ∀ (st : Flash),
      (∀ t, t ∉ L → (L.foldl programCleanHeader st) t = st t) ∧
      (∀ t, t ∈ L → (L.foldl programCleanHeader st) t
        = programHeaderPage (st t) ⟨0, 0, 0, 0⟩) := by
  intro L
  induction L with
  | nil =>
    intro _ st
    exact ⟨fun t _ => rfl, fun t ht => absurd ht (List.not_mem_nil t)⟩
  | cons a L2 ih =>
    intro hnd st
    obtain ⟨ha, hnd2⟩ := List.nodup_cons.mp hnd
    rw [List.foldl_cons]
    obtain ⟨ihf, ihp⟩ := ih hnd2 (programCleanHeader st a)
    have hagree : ∀ t, t ≠ a → programCleanHeader st a t = st t := by
      intro t ht
      simp [programCleanHeader, updateAt, ht]
    refine ⟨?_, ?_⟩
    · intro t htn
      have ht2 : t ∉ L2 := fun hx => htn (List.mem_cons_of_mem a hx)
      have hta : t ≠ a := fun hx => htn (by rw [hx]; exact List.mem_cons_self a L2)
      rw [ihf t ht2]
      exact hagree t hta
    · intro t htm
      rcases List.mem_cons.mp htm with hta | htL
      · subst hta
        rw [ihf t ha]
        simp [programCleanHeader, updateAt]
      · have hta : t ≠ a := fun hx => ha (hx ▸ htL)
        rw [ihp t htL, hagree t hta]

/-- C9 (amended): `delete_sectors` reprograms only the header page of each
sector in `[begin, end)`: every `SectorHeader` field (the first 12 header
bytes, i.e. signature, logicalId, writeCount, subSectorIndex) is programmed
to zero, each remaining header-page byte is programmed with `0xFF` and (being
a byte) left unchanged, bytes beyond the header page are untouched, sectors
outside the range are untouched, and afterwards the sector is classified
free (`isValid` false, since the zero signature differs from the magic
value). -/
theorem delete_sectors_zeroes_header_only (st : Flash) (b e s : Nat)
    (hbytes : ∀ i, (st s).rest i ≤ 255) :
    (b ≤ s → s < e →
      ((delete_sectors st b e) s).signature = 0 ∧
      ((delete_sectors st b e) s).logicalID = 0 ∧
      ((delete_sectors st b e) s).writeCount = 0 ∧
      ((delete_sectors st b e) s).id = 0 ∧
      (∀ i, ((delete_sectors st b e) s).rest i = (st s).rest i) ∧
      check_sector_signature (delete_sectors st b e) s = false) ∧
    (¬(b ≤ s ∧ s < e) → (delete_sectors st b e) s = st s) := by
  have hnd : (List.range' b (e - b)).Nodup := List.nodup_range' b (e - b)
  obtain ⟨hf, hp⟩ := delete_go (List.range' b (e - b)) hnd st
  constructor
  · intro hbs hse
    have hmem : s ∈ List.range' b (e - b) := by
      rw [List.mem_range'_1]
      omega
    have hval : (delete_sectors st b e) s = programHeaderPage (st s) ⟨0, 0, 0, 0⟩ :=
      hp s hmem
    rw [hval]
    refine ⟨by simp [programHeaderPage], by simp [programHeaderPage],
      by simp [programHeaderPage], by simp [programHeaderPage], ?_, ?_⟩
    · intro i
      simp only [programHeaderPage]
      by_cases hi : 12 + i < FLASH_PAGE_SIZE
      · rw [if_pos hi]
        exact land_mask8 _ (hbytes i)
      · rw [if_neg hi]
    · have hsig : ((delete_sectors st b e) s).signature = 0 := by
        rw [hval]
        simp [programHeaderPage]
      simp [check_sector_signature, get_header_attribute_from_sector, hsig, MEMORY_SIGNATURE]
  · intro hout
    apply hf
    rw [List.mem_range'_1]
    omega

/-- Witness for `delete_sectors_zeroes_header_only`: deleting sector 1
(header logical id 3, payload erased) via `delete_sector`'s range `[1, 2)`. -/
theorem delete_sectors_zeroes_header_only_witness :
    ((delete_sectors stLidThree 1 2) 1).signature = 0 ∧
    ((delete_sectors stLidThree 1 2) 1).logicalID = 0 ∧
    ((delete_sectors stLidThree 1 2) 1).writeCount = 0 ∧
    ((delete_sectors stLidThree 1 2) 1).id = 0 ∧
    (∀ i, ((delete_sectors stLidThree 1 2) 1).rest i = (stLidThree 1).rest i) ∧
    check_sector_signature (delete_sectors stLidThree 1 2) 1 = false :=
  (delete_sectors_zeroes_header_only stLidThree 1 2 1
    (fun i => by simp [stLidThree, updateAt, writtenSector])).1
    (by decide) (by decide)

/-! ### Gap-fill machinery for groupBy = 1 -/

theorem leaders_g1 (cfg : Config) (hg : cfg.groupBy = 1) :
    leaders cfg = List.range' cfg.lowerBound cfg.logicalSectorsCount := by
  unfold leaders
  rw [hg, if_neg (by omega), List.range'_eq_map_range]
  apply List.map_congr_left
  intro a _
  omega

theorem upperBound_g1 (cfg : Config) (hg : cfg.groupBy = 1) :
    cfg.upperBound = cfg.lowerBound + cfg.logicalSectorsCount := by
  unfold Config.upperBound
  rw [hg]
  omega

/-- Number of group leaders whose signature is invalid. -/
def invCount (cfg : Config) (st : Flash) : Nat :=
  (leaders cfg).countP (fun s => !check_sector_signature st s)

/-- Number of logical ids in `M` that do not currently resolve. -/
def unmappedCount (cfg : Config) (st : Flash) (M : List Nat) : Nat :=
  M.countP (fun j => !(get_first_sector_from_logical_id cfg st j).isSome)

theorem countP_flip_at {L : List Nat} (hnd : L.Nodup) {x : Nat} (hx : x ∈ L)
    {p q : Nat → Bool} (hpx : p x = true) (hqx : q x = false)
    (hagree : ∀ t ∈ L, t ≠ x → p t = q t) :
    L.countP q + 1 = L.countP p := by
  induction L with
  | nil => exact absurd hx (List.not_mem_nil x)
  | cons a L2 ih =>
    obtain ⟨ha, hnd2⟩ := List.nodup_cons.mp hnd
    rcases List.mem_cons.mp hx with hax | hxL
    · subst hax
      have hcongr : L2.countP q = L2.countP p := by
        apply List.countP_congr
        intro t ht
        rw [hagree t (List.mem_cons_of_mem _ ht) (fun he => ha (he ▸ ht))]
      rw [List.countP_cons, List.countP_cons, hcongr]
      simp [hpx, hqx]
    · have hax : a ≠ x := fun he => ha (he ▸ hxL)
      have hpa : p a = q a := hagree a (List.mem_cons_self a L2) hax
      have hrec := ih hnd2 hxL (fun t ht htx => hagree t (List.mem_cons_of_mem _ ht) htx)
      rw [List.countP_cons, List.countP_cons, ← hpa]
      omega

theorem countP_le_countP_of_inj (p q : Nat → Bool) (f : Nat → Nat) :
    ∀ (M L : List Nat), M.Nodup →
      (∀ j ∈ M, p j = true → f j ∈ L ∧ q (f j) = true) →
      (∀ j ∈ M, ∀ j2 ∈ M, p j = true → p j2 = true → f j = f j2 → j = j2) →
      M.countP p ≤ L.countP q := by
  intro M
  induction M with
  | nil =>
    intro L _ _ _
    simp
  | cons j M2 ih =>
    intro L hnd hmem hinj
    obtain ⟨hj, hnd2⟩ := List.nodup_cons.mp hnd
    rw [List.countP_cons]
    by_cases hp : p j = true
    · obtain ⟨hfL, hq⟩ := hmem j (List.mem_cons_self _ _) hp
      have hperm : L.Perm (f j :: L.erase (f j)) := List.perm_cons_erase hfL
      have hcnt : L.countP q = (L.erase (f j)).countP q + 1 := by
        rw [hperm.countP_eq q, List.countP_cons]
        simp [hq]
      have hle : M2.countP p ≤ (L.erase (f j)).countP q := by
        apply ih (L.erase (f j)) hnd2
        · intro j2 hj2 hp2
          obtain ⟨hfL2, hq2⟩ := hmem j2 (List.mem_cons_of_mem _ hj2) hp2
          refine ⟨?_, hq2⟩
          have hne : f j2 ≠ f j := by
            intro he
            have := hinj j2 (List.mem_cons_of_mem _ hj2) j (List.mem_cons_self _ _) hp2 hp he
            exact hj (this ▸ hj2)
          exact (List.mem_erase_of_ne hne).mpr hfL2
        · intro j2 hj2 j3 hj3 hp2 hp3 hfe
          exact hinj j2 (List.mem_cons_of_mem _ hj2) j3 (List.mem_cons_of_mem _ hj3) hp2 hp3 hfe
      simp only [hp, if_true]
      omega
    · have hle := ih L hnd2
        (fun j2 hj2 hp2 => hmem j2 (List.mem_cons_of_mem _ hj2) hp2)
        (fun j2 hj2 j3 hj3 hp2 hp3 hfe =>
          hinj j2 (List.mem_cons_of_mem _ hj2) j3 (List.mem_cons_of_mem _ hj3) hp2 hp3 hfe)
      have hz : (if p j = true then 1 else 0) = 0 := by simp [hp]
      rw [hz]
      omega

theorem check_update_other (st : Flash) (sf : Nat) (sec : Sector) (t : Nat) (h : t ≠ sf) :
    check_sector_signature (updateAt st sf sec) t = check_sector_signature st t := by
  simp [check_sector_signature, get_header_attribute_from_sector, updateAt, h]

theorem check_update_written (st : Flash) (sf lid wc sid : Nat) :
    check_sector_signature (updateAt st sf (writtenSector lid wc sid)) sf = true := by
  simp [check_sector_signature, get_header_attribute_from_sector, updateAt, writtenSector]

theorem lid_update_written (st : Flash) (sf lid wc sid : Nat) :
    ((updateAt st sf (writtenSector lid wc sid)) sf).logicalID = lid := by
  simp [updateAt, writtenSector]

theorem goodHeader_update_written (st : Flash) (sf lid wc sid j2 : Nat)
    (hinv : check_sector_signature st sf = false) (hne : lid ≠ j2) :
    goodHeader (updateAt st sf (writtenSector lid wc sid)) j2
      = goodHeader st j2 := by
  funext x
  by_cases hx : x = sf
  · subst hx
    have hL : goodHeader (updateAt st x (writtenSector lid wc sid)) j2 x = false := by
      simp [goodHeader, check_sector_signature, get_header_attribute_from_sector,
        updateAt, writtenSector, hne]
    have hR : goodHeader st j2 x = false := by
      simp [goodHeader, hinv]
    rw [hL, hR]
  · simp [goodHeader, check_sector_signature, get_header_attribute_from_sector, updateAt, hx]

theorem get_first_update_written_ne (cfg : Config) (st : Flash) (sf lid wc sid j2 : Nat)
    (hinv : check_sector_signature st sf = false) (hne : lid ≠ j2) :
    get_first_sector_from_logical_id cfg (updateAt st sf (writtenSector lid wc sid)) j2
      = get_first_sector_from_logical_id cfg st j2 := by
  unfold get_first_sector_from_logical_id
  rw [goodHeader_update_written st sf lid wc sid j2 hinv hne]

theorem get_first_update_written_self (cfg : Config) (st : Flash) (sf lid wc sid : Nat)
    (hsf : sf ∈ leaders cfg) :
    (get_first_sector_from_logical_id cfg
      (updateAt st sf (writtenSector lid wc sid)) lid).isSome = true := by
  unfold get_first_sector_from_logical_id
  simp only [List.find?_isSome]
  refine ⟨sf, hsf, ?_⟩
  simp [goodHeader, check_sector_signature, get_header_attribute_from_sector,
    updateAt, writtenSector]

theorem write_initHeader_g1 (st : Flash) (sf j : Nat) (hj : j < 65536) :
    _write_sector_by_physical_addr st sf (initHeader j)
      = updateAt st sf (writtenSector j 1 0) := by
  unfold _write_sector_by_physical_addr
  rw [programHeaderPage_erased_initHeader, Nat.mod_eq_of_lt hj]

theorem countP_not_add (L : List Nat) (p : Nat → Bool) :
    L.countP p + L.countP (fun a => !p a) = L.length := by
  induction L with
  | nil => simp
  | cons a L2 ih =>
    rw [List.countP_cons, List.countP_cons, List.length_cons]
    cases hpa : p a
    · simp [hpa]
      omega
    · simp [hpa]
      omega

theorem leaders_length_le (cfg : Config) :
    (leaders cfg).length ≤ cfg.logicalSectorsCount := by
  unfold leaders
  split
  · simp
  · simp

theorem unmapped_ge_invCount (cfg : Config) (st : Flash) :
    invCount cfg st ≤ unmappedCount cfg st (List.range cfg.logicalSectorsCount) := by
  have hmap : (List.range cfg.logicalSectorsCount).countP
      (fun j => (get_first_sector_from_logical_id cfg st j).isSome)
      ≤ (leaders cfg).countP (fun s => check_sector_signature st s) := by
    apply countP_le_countP_of_inj _ _
      (fun j => (get_first_sector_from_logical_id cfg st j).getD 0)
      _ _ (List.nodup_range _)
    · intro j _ hp
      obtain ⟨s, hs⟩ := Option.isSome_iff_exists.mp hp
      have hs2 : (leaders cfg).find? (goodHeader st j) = some s := hs
      have hmem := List.mem_of_find?_eq_some hs2
      have hgood := List.find?_some hs2
      rw [hs, Option.getD_some]
      exact ⟨hmem, (Bool.and_eq_true _ _ |>.mp hgood).1⟩
    · intro j1 _ j2 _ hp1 hp2 hfe
      obtain ⟨s1, hs1⟩ := Option.isSome_iff_exists.mp hp1
      obtain ⟨s2, hs2⟩ := Option.isSome_iff_exists.mp hp2
      rw [hs1, hs2, Option.getD_some, Option.getD_some] at hfe
      subst hfe
      have hg1 := List.find?_some (hs1 : (leaders cfg).find? (goodHeader st j1) = some s1)
      have hg2 := List.find?_some (hs2 : (leaders cfg).find? (goodHeader st j2) = some s1)
      have he1 : get_header_attribute_from_sector st s1 1 = j1 := by
        simpa using (Bool.and_eq_true _ _ |>.mp hg1).2
      have he2 : get_header_attribute_from_sector st s1 1 = j2 := by
        simpa using (Bool.and_eq_true _ _ |>.mp hg2).2
      omega
  have hM := countP_not_add (List.range cfg.logicalSectorsCount)
    (fun j => (get_first_sector_from_logical_id cfg st j).isSome)
  have hL := countP_not_add (leaders cfg) (fun s => check_sector_signature st s)
  have hlen := leaders_length_le cfg
  have hlenM : (List.range cfg.logicalSectorsCount).length = cfg.logicalSectorsCount :=
    List.length_range _
  unfold invCount unmappedCount
  omega

theorem gapFill_g1 (cfg : Config) (hg : cfg.groupBy = 1)
    (hcnt : cfg.logicalSectorsCount ≤ 65536) (rnd : Nat → Nat) :
    ∀ (M : List Nat) (st : Flash) (u a : Nat),
      1 ≤ u → M.Nodup → (∀ j ∈ M, j < cfg.logicalSectorsCount) →
      (∀ s ∈ leaders cfg, check_sector_signature st s = true →
        (st s).logicalID < cfg.logicalSectorsCount) →
      invCount cfg st = u →
      u ≤ unmappedCount cfg st M →
      ∀ s ∈ leaders cfg,
        check_sector_signature (gapFillGo cfg rnd M st u a).1 s = true ∧
        ((gapFillGo cfg rnd M st u a).1 s).logicalID < cfg.logicalSectorsCount := by
  intro M
  induction M with
  | nil =>
    intro st u a hu _ _ _ _ hC
    have : unmappedCount cfg st [] = 0 := by simp [unmappedCount]
    omega
  | cons j M2 ih =>
    intro st u a hu hnd hjlt hA hB hC
    obtain ⟨hjM, hnd2⟩ := List.nodup_cons.mp hnd
    by_cases hsome : (get_first_sector_from_logical_id cfg st j).isSome = true
    · have hstep : gapFillGo cfg rnd (j :: M2) st u a = gapFillGo cfg rnd M2 st u a := by
        conv_lhs => rw [gapFillGo]
        rw [if_pos hsome]
      rw [hstep]
      have hCtail : unmappedCount cfg st (j :: M2) = unmappedCount cfg st M2 := by
        unfold unmappedCount
        rw [List.countP_cons]
        simp [hsome]
      exact ih st u a hu hnd2 (fun x hx => hjlt x (List.mem_cons_of_mem _ hx)) hA hB
        (by omega)
    · have hsome2 : (get_first_sector_from_logical_id cfg st j).isSome = false := by
        cases hx : (get_first_sector_from_logical_id cfg st j).isSome
        · rfl
        · exact absurd hx hsome
      have hfree : ∃ s2, cfg.lowerBound ≤ s2 ∧ s2 < cfg.upperBound ∧
          check_sector_signature st s2 = false := by
        have hpos : 0 < (leaders cfg).countP (fun s => !check_sector_signature st s) := by
          unfold invCount at hB
          omega
        obtain ⟨s2, hs2m, hs2p⟩ := List.countP_pos_iff.mp hpos
        have hb := hs2m
        rw [leaders_g1 cfg hg, List.mem_range'_1] at hb
        refine ⟨s2, hb.1, ?_, ?_⟩
        · rw [upperBound_g1 cfg hg]
          omega
        · cases hcc : check_sector_signature st s2
          · rfl
          · rw [hcc] at hs2p
            exact absurd hs2p (by simp)
      obtain ⟨sf, halloc, hinvf, hlof, hhif⟩ :=
        allocator_never_returns_valid cfg st (rnd a) hfree
      have hsfmem : sf ∈ leaders cfg := by
        rw [leaders_g1 cfg hg, List.mem_range'_1]
        rw [upperBound_g1 cfg hg] at hhif
        omega
      have hjlt2 : j < 65536 := lt_of_lt_of_le (hjlt j (List.mem_cons_self _ _)) hcnt
      have hwrite := write_initHeader_g1 st sf j hjlt2
      have hstep : gapFillGo cfg rnd (j :: M2) st u a
          = (if u - 1 = 0 then (updateAt st sf (writtenSector j 1 0), u - 1, a + 1)
             else gapFillGo cfg rnd M2 (updateAt st sf (writtenSector j 1 0)) (u - 1) (a + 1)) := by
        conv_lhs => rw [gapFillGo.eq_def]
        simp only [hsome2, Bool.false_eq_true, if_false, halloc, hwrite]
      have hflip : invCount cfg (updateAt st sf (writtenSector j 1 0)) + 1 = invCount cfg st := by
        apply countP_flip_at (leaders_nodup cfg) hsfmem
        · simp [hinvf]
        · simp [check_update_written]
        · intro t _ htne
          simp [check_update_other st sf _ t htne]
      have hA2 : ∀ s ∈ leaders cfg,
          check_sector_signature (updateAt st sf (writtenSector j 1 0)) s = true →
          ((updateAt st sf (writtenSector j 1 0)) s).logicalID < cfg.logicalSectorsCount := by
        intro s hs hc
        by_cases hssf : s = sf
        · subst hssf
          rw [lid_update_written]
          exact hjlt j (List.mem_cons_self _ _)
        · rw [updateAt_other _ _ _ _ hssf]
          apply hA s hs
          rw [← check_update_other st sf (writtenSector j 1 0) s hssf]
          exact hc
      rw [hstep]
      by_cases hu1 : u - 1 = 0
      · rw [if_pos hu1]
        intro s hs
        have hz : invCount cfg (updateAt st sf (writtenSector j 1 0)) = 0 := by omega
        have hval : check_sector_signature (updateAt st sf (writtenSector j 1 0)) s = true := by
          unfold invCount at hz
          have hns := List.countP_eq_zero.mp hz s hs
          cases hcc : check_sector_signature (updateAt st sf (writtenSector j 1 0)) s
          · rw [hcc] at hns
            exact absurd (by simp) hns
          · rfl
        exact ⟨hval, hA2 s hs hval⟩
      · rw [if_neg hu1]
        have hCtail : u - 1 ≤ unmappedCount cfg st M2 := by
          have hj1 : unmappedCount cfg st (j :: M2) = unmappedCount cfg st M2 + 1 := by
            unfold unmappedCount
            rw [List.countP_cons]
            simp [hsome2]
          omega
        have htransfer : unmappedCount cfg (updateAt st sf (writtenSector j 1 0)) M2
            = unmappedCount cfg st M2 := by
          unfold unmappedCount
          apply List.countP_congr
          intro j2 hj2
          have hne : (j : Nat) ≠ j2 := fun he => hjM (he ▸ hj2)
          rw [get_first_update_written_ne cfg st sf j 1 0 j2 hinvf hne]
        exact ih (updateAt st sf (writtenSector j 1 0)) (u - 1) (a + 1) (by omega) hnd2
          (fun x hx => hjlt x (List.mem_cons_of_mem _ hx)) hA2 (by omega) (by omega)

theorem check_congr (st st' : Flash) (t : Nat) (h : st' t = st t) :
    check_sector_signature st' t = check_sector_signature st t := by
  simp [check_sector_signature, get_header_attribute_from_sector, h]

theorem attr1_eq (st : Flash) (s : Nat) :
    get_header_attribute_from_sector st s 1 = (st s).logicalID := rfl

theorem init_sectors_eq (cfg : Config) (rnd : Nat → Nat) (st : Flash) :
    init_sectors cfg rnd st
      = if (sweep cfg st).2 = 0 then (sweep cfg st).1
        else (gapFillGo cfg rnd (List.range cfg.logicalSectorsCount) (sweep cfg st).1
          (sweep cfg st).2 0).1 := rfl

/-- Core invariant of a `groupBy = 1` initialization run: afterwards every
sector of the managed range carries a valid signature with an in-range
logical id. -/
theorem init_all_good_g1 (cfg : Config) (hg : cfg.groupBy = 1)
    (hcnt : cfg.logicalSectorsCount ≤ 65536) (rnd : Nat → Nat) (st0 : Flash) :
    ∀ s ∈ leaders cfg, check_sector_signature (init_sectors cfg rnd st0) s = true ∧
      ((init_sectors cfg rnd st0) s).logicalID < cfg.logicalSectorsCount := by
  obtain ⟨hf, hp, hc⟩ := sweep_char cfg st0
  rw [init_sectors_eq]
  by_cases hu : (sweep cfg st0).2 = 0
  · rw [if_pos hu]
    intro s hs
    have hbad : badLeader cfg st0 s = false := by
      rw [hc] at hu
      have := List.countP_eq_zero.mp hu s hs
      cases hb : badLeader cfg st0 s
      · rfl
      · exact absurd hb this
    have hchk : check_sector_signature st0 s = true := by
      cases hcc : check_sector_signature st0 s
      · rw [badLeader, hcc] at hbad
        simp at hbad
      · rfl
    have hlt : (st0 s).logicalID < cfg.logicalSectorsCount := by
      rw [badLeader, hchk] at hbad
      simp at hbad
      rw [attr1_eq] at hbad
      omega
    have hpt : (sweep cfg st0).1 s = st0 s := by
      rw [hp s hs]
      unfold sweepPoint
      rw [if_pos hchk, if_neg (by rw [attr1_eq]; omega)]
    refine ⟨?_, ?_⟩
    · rw [check_congr st0 _ s hpt]
      exact hchk
    · rw [hpt]
      exact hlt
  · rw [if_neg hu]
    apply gapFill_g1 cfg hg hcnt rnd (List.range cfg.logicalSectorsCount)
      (sweep cfg st0).1 (sweep cfg st0).2 0 (by omega) (List.nodup_range _)
      (fun j hj => List.mem_range.mp hj) ?_ ?_ ?_
    · intro s hs hchk
      have hpt := hp s hs
      by_cases h1 : check_sector_signature st0 s = true
      · by_cases h2 : cfg.logicalSectorsCount ≤ get_header_attribute_from_sector st0 s 1
        · exfalso
          have hzero : ((sweep cfg st0).1 s).signature = 0 := by
            rw [hpt]
            unfold sweepPoint
            rw [if_pos h1, if_pos h2]
            simp [programHeaderPage]
          rw [check_sector_signature, get_header_attribute_from_sector] at hchk
          simp [hzero, MEMORY_SIGNATURE] at hchk
        · have hst : (sweep cfg st0).1 s = st0 s := by
            rw [hpt]
            unfold sweepPoint
            rw [if_pos h1, if_neg h2]
          rw [hst, ← attr1_eq]
          omega
      · exfalso
        have hst : (sweep cfg st0).1 s = st0 s := by
          rw [hpt]
          unfold sweepPoint
          rw [if_neg h1]
        rw [check_congr st0 _ s hst] at hchk
        exact h1 hchk
    · rw [hc]
      unfold invCount
      apply List.countP_congr
      intro s hs
      have hpt := hp s hs
      by_cases h1 : check_sector_signature st0 s = true
      · by_cases h2 : cfg.logicalSectorsCount ≤ get_header_attribute_from_sector st0 s 1
        · have hzero : ((sweep cfg st0).1 s).signature = 0 := by
            rw [hpt]
            unfold sweepPoint
            rw [if_pos h1, if_pos h2]
            simp [programHeaderPage]
          have hcf : check_sector_signature (sweep cfg st0).1 s = false := by
            rw [check_sector_signature, get_header_attribute_from_sector]
            simp [hzero, MEMORY_SIGNATURE]
          simp [hcf, badLeader, h1, h2]
        · have hst : (sweep cfg st0).1 s = st0 s := by
            rw [hpt]
            unfold sweepPoint
            rw [if_pos h1, if_neg h2]
          have hcf : check_sector_signature (sweep cfg st0).1 s = true := by
            rw [check_congr st0 _ s hst]
            exact h1
          simp [hcf, badLeader, h1, h2]
      · have hst : (sweep cfg st0).1 s = st0 s := by
          rw [hpt]
          unfold sweepPoint
          rw [if_neg h1]
        have h1f : check_sector_signature st0 s = false := by
          cases hcc : check_sector_signature st0 s
          · rfl
          · exact absurd hcc h1
        have hcf : check_sector_signature (sweep cfg st0).1 s = false := by
          rw [check_congr st0 _ s hst]
          exact h1f
        simp [hcf, badLeader, h1f]
    · have hge := unmapped_ge_invCount cfg (sweep cfg st0).1
      have hc2 : invCount cfg (sweep cfg st0).1 = (sweep cfg st0).2 := by
        rw [hc]
        unfold invCount
        apply List.countP_congr
        intro s hs
        have hpt := hp s hs
        by_cases h1 : check_sector_signature st0 s = true
        · by_cases h2 : cfg.logicalSectorsCount ≤ get_header_attribute_from_sector st0 s 1
          · have hzero : ((sweep cfg st0).1 s).signature = 0 := by
              rw [hpt]
              unfold sweepPoint
              rw [if_pos h1, if_pos h2]
              simp [programHeaderPage]
            have hcf : check_sector_signature (sweep cfg st0).1 s = false := by
              rw [check_sector_signature, get_header_attribute_from_sector]
              simp [hzero, MEMORY_SIGNATURE]
            simp [hcf, badLeader, h1, h2]
          · have hst : (sweep cfg st0).1 s = st0 s := by
              rw [hpt]
              unfold sweepPoint
              rw [if_pos h1, if_neg h2]
            have hcf : check_sector_signature (sweep cfg st0).1 s = true := by
              rw [check_congr st0 _ s hst]
              exact h1
            simp [hcf, badLeader, h1, h2]
        · have hst : (sweep cfg st0).1 s = st0 s := by
            rw [hpt]
            unfold sweepPoint
            rw [if_neg h1]
          have h1f : check_sector_signature st0 s = false := by
            cases hcc : check_sector_signature st0 s
            · rfl
            · exact absurd hcc h1
          have hcf : check_sector_signature (sweep cfg st0).1 s = false := by
            rw [check_congr st0 _ s hst]
            exact h1f
          simp [hcf, badLeader, h1f]
      omega

/-- When every leader already carries a valid in-range header, `init_sectors`
counts nothing to initialize, takes the early-return path (no allocator call,
no write) and leaves the flash identical. -/
theorem init_noop_of_all_good (cfg : Config) (rnd : Nat → Nat) (st : Flash)
    (hgood : ∀ s ∈ leaders cfg, check_sector_signature st s = true ∧
      (st s).logicalID < cfg.logicalSectorsCount) :
    (sweep cfg st).2 = 0 ∧ init_sectors cfg rnd st = st := by
  obtain ⟨hf, hp, hc⟩ := sweep_char cfg st
  have hbadz : ∀ s ∈ leaders cfg, badLeader cfg st s = false := by
    intro s hs
    obtain ⟨h1, h2⟩ := hgood s hs
    simp [badLeader, h1, attr1_eq]
    omega
  have hcz : (sweep cfg st).2 = 0 := by
    rw [hc]
    apply List.countP_eq_zero.mpr
    intro s hs
    rw [hbadz s hs]
    simp
  refine ⟨hcz, ?_⟩
  rw [init_sectors_eq, if_pos hcz]
  funext t
  by_cases ht : t ∈ leaders cfg
  · rw [hp t ht]
    obtain ⟨h1, h2⟩ := hgood t ht
    unfold sweepPoint
    rw [if_pos h1, if_neg (by rw [attr1_eq]; omega)]
  · exact hf t ht

/-- C5 (amended): for every configuration with `groupBy = 1` (and
`1 ≤ lowerBound`, `upperBound ≤ 65536`, where the embedding coincides with
the C integer widths), running the Initializer twice in succession with
identical configuration — from any initial flash state and any random
streams — performs zero allocations and zero flash writes on the second run:
the second run's validation sweep counts zero sectors needing
initialization, so `init_sectors` returns before the gap-fill/allocator
phase, and the flash (hence every logical-to-physical mapping) is left
exactly unchanged. -/
theorem init_sectors_idempotent_g1 (cfg : Config) (hg : cfg.groupBy = 1)
    (hlb : 1 ≤ cfg.lowerBound) (hub : cfg.upperBound ≤ 65536)
    (rnd1 rnd2 : Nat → Nat) (st0 : Flash) :
    (sweep cfg (init_sectors cfg rnd1 st0)).2 = 0 ∧
    init_sectors cfg rnd2 (init_sectors cfg rnd1 st0) = init_sectors cfg rnd1 st0 := by
  have hub2 := upperBound_g1 cfg hg
  have hcnt : cfg.logicalSectorsCount ≤ 65536 := by omega
  exact init_noop_of_all_good cfg rnd2 (init_sectors cfg rnd1 st0)
    (init_all_good_g1 cfg hg hcnt rnd1 st0)

/-- Witness for `init_sectors_idempotent_g1` at `cfg111` on all-erased flash
with constant random streams. -/
theorem init_sectors_idempotent_g1_witness :
    (sweep cfg111 (init_sectors cfg111 (fun _ => 0) erasedFlash)).2 = 0 ∧
    init_sectors cfg111 (fun _ => 1) (init_sectors cfg111 (fun _ => 0) erasedFlash)
      = init_sectors cfg111 (fun _ => 0) erasedFlash :=
  init_sectors_idempotent_g1 cfg111 rfl (by decide) (by decide)
    (fun _ => 0) (fun _ => 1) erasedFlash

/-! ### Cold-boot initialization for groupBy = 1 -/

/-- Invariant of the cold-boot gap fill: after processing logical ids
`0..jmax`, sectors outside the managed range are still erased, every valid
managed sector is exactly a library-written representative for some id below
`jmax` (write count 1, sub-sector index 0), every id below `jmax` is placed,
placements are injective, and the number of still-invalid managed sectors is
`logicalSectorsCount - jmax`. -/
structure ColdInv (cfg : Config) (jmax : Nat) (st : Flash) : Prop where
  outside : ∀ s, s ∉ leaders cfg → st s = erasedSector
  content : ∀ s ∈ leaders cfg, check_sector_signature st s = true →
    ∃ i, i < jmax ∧ st s = writtenSector i 1 0
  surj : ∀ i, i < jmax → ∃ s ∈ leaders cfg, st s = writtenSector i 1 0
  inj : ∀ s ∈ leaders cfg, ∀ t ∈ leaders cfg, check_sector_signature st s = true →
    check_sector_signature st t = true → (st s).logicalID = (st t).logicalID → s = t
  invcnt : invCount cfg st = cfg.logicalSectorsCount - jmax

theorem gapFillCold (cfg : Config) (hg : cfg.groupBy = 1)
    (hcnt : cfg.logicalSectorsCount ≤ 65536) (rnd : Nat → Nat) :
    ∀ (n j : Nat) (st : Flash) (a : Nat),
      j + n = cfg.logicalSectorsCount → 1 ≤ n →
      ColdInv cfg j st →
      ColdInv cfg cfg.logicalSectorsCount
        (gapFillGo cfg rnd (List.range' j n) st n a).1 := by
  intro n
  induction n with
  | zero =>
    intro j st a _ h1
    omega
  | succ m ih =>
    intro j st a hsum hpos hInv
    rw [List.range'_succ]
    have hnone : get_first_sector_from_logical_id cfg st j = none := by
      unfold get_first_sector_from_logical_id
      apply List.find?_eq_none.mpr
      intro x hx hgx
      obtain ⟨hcx, hax⟩ := Bool.and_eq_true _ _ |>.mp hgx
      obtain ⟨i, hilt, hw⟩ := hInv.content x hx hcx
      have hxj : get_header_attribute_from_sector st x 1 = j := by simpa using hax
      rw [attr1_eq, hw] at hxj
      simp [writtenSector] at hxj
      omega
    have hsome2 : (get_first_sector_from_logical_id cfg st j).isSome = false := by
      rw [hnone]
      rfl
    have hfree : ∃ s2, cfg.lowerBound ≤ s2 ∧ s2 < cfg.upperBound ∧
        check_sector_signature st s2 = false := by
      have hiv := hInv.invcnt
      unfold invCount at hiv
      have hpos2 : 0 < (leaders cfg).countP (fun s => !check_sector_signature st s) := by
        omega
      obtain ⟨s2, hs2m, hs2p⟩ := List.countP_pos_iff.mp hpos2
      have hb := hs2m
      rw [leaders_g1 cfg hg, List.mem_range'_1] at hb
      refine ⟨s2, hb.1, by rw [upperBound_g1 cfg hg]; omega, ?_⟩
      cases hcc : check_sector_signature st s2
      · rfl
      · rw [hcc] at hs2p
        exact absurd hs2p (by simp)
    obtain ⟨sf, halloc, hinvf, hlof, hhif⟩ := allocator_never_returns_valid cfg st (rnd a) hfree
    have hsfmem : sf ∈ leaders cfg := by
      rw [leaders_g1 cfg hg, List.mem_range'_1]
      rw [upperBound_g1 cfg hg] at hhif
      omega
    have hjcnt : j < cfg.logicalSectorsCount := by omega
    have hwrite := write_initHeader_g1 st sf j (by omega)
    have hstep : gapFillGo cfg rnd (j :: List.range' (j + 1) m) st (m + 1) a
        = (if (m + 1) - 1 = 0 then (updateAt st sf (writtenSector j 1 0), (m + 1) - 1, a + 1)
           else gapFillGo cfg rnd (List.range' (j + 1) m)
             (updateAt st sf (writtenSector j 1 0)) ((m + 1) - 1) (a + 1)) := by
      conv_lhs => rw [gapFillGo]
      simp only [hsome2, Bool.false_eq_true, if_false, halloc, hwrite]
    have hsfcontent : (updateAt st sf (writtenSector j 1 0)) sf = writtenSector j 1 0 :=
      updateAt_self st sf _
    have hInv2 : ColdInv cfg (j + 1) (updateAt st sf (writtenSector j 1 0)) := by
      refine ⟨?_, ?_, ?_, ?_, ?_⟩
      · intro s hs
        have hssf : s ≠ sf := fun he => hs (he ▸ hsfmem)
        rw [updateAt_other _ _ _ _ hssf]
        exact hInv.outside s hs
      · intro s hs hc
        by_cases hssf : s = sf
        · subst hssf
          exact ⟨j, by omega, hsfcontent⟩
        · rw [updateAt_other _ _ _ _ hssf]
          rw [check_update_other _ _ _ _ hssf] at hc
          obtain ⟨i, hi, hw⟩ := hInv.content s hs hc
          exact ⟨i, by omega, hw⟩
      · intro i hi
        by_cases hij : i = j
        · subst hij
          exact ⟨sf, hsfmem, hsfcontent⟩
        · obtain ⟨s, hs, hw⟩ := hInv.surj i (by omega)
          have hssf : s ≠ sf := by
            intro he
            have : check_sector_signature st s = true := check_writtenSector st s i 1 0 hw
            rw [he, hinvf] at this
            exact Bool.false_ne_true this
          refine ⟨s, hs, ?_⟩
          rw [updateAt_other _ _ _ _ hssf]
          exact hw
      · intro s hs t ht hcs hct heq
        by_cases hssf : s = sf
        · by_cases htsf : t = sf
          · rw [hssf, htsf]
          · exfalso
            rw [check_update_other _ _ _ _ htsf] at hct
            obtain ⟨i, hi, hw⟩ := hInv.content t ht hct
            rw [hssf, hsfcontent, updateAt_other _ _ _ _ htsf, hw] at heq
            simp [writtenSector] at heq
            omega
        · by_cases htsf : t = sf
          · exfalso
            rw [check_update_other _ _ _ _ hssf] at hcs
            obtain ⟨i, hi, hw⟩ := hInv.content s hs hcs
            rw [htsf, hsfcontent, updateAt_other _ _ _ _ hssf, hw] at heq
            simp [writtenSector] at heq
            omega
          · rw [check_update_other _ _ _ _ hssf] at hcs
            rw [check_update_other _ _ _ _ htsf] at hct
            rw [updateAt_other _ _ _ _ hssf, updateAt_other _ _ _ _ htsf] at heq
            exact hInv.inj s hs t ht hcs hct heq
      · have hflip : invCount cfg (updateAt st sf (writtenSector j 1 0)) + 1
            = invCount cfg st := by
          apply countP_flip_at (leaders_nodup cfg) hsfmem
          · simp [hinvf]
          · simp [check_update_written]
          · intro t _ htne
            simp [check_update_other st sf _ t htne]
        have hiv := hInv.invcnt
        omega
    rw [hstep]
    by_cases hm : m = 0
    · subst hm
      rw [if_pos (by omega)]
      have hjc : j + 1 = cfg.logicalSectorsCount := by omega
      rw [← hjc]
      exact hInv2
    · rw [if_neg (by omega)]
      have hm1 : (m + 1) - 1 = m := by omega
      rw [hm1]
      exact ih (j + 1) (updateAt st sf (writtenSector j 1 0)) (a + 1) (by omega) (by omega) hInv2

theorem init_cold_g1 (cfg : Config) (hg : cfg.groupBy = 1)
    (hcnt : cfg.logicalSectorsCount ≤ 65536) (hcpos : 1 ≤ cfg.logicalSectorsCount)
    (rnd : Nat → Nat) :
    ColdInv cfg cfg.logicalSectorsCount (init_sectors cfg rnd erasedFlash) := by
  obtain ⟨hf, hp, hc⟩ := sweep_char cfg erasedFlash
  have hchkE : ∀ s, check_sector_signature erasedFlash s = false :=
    fun s => check_erased _ s rfl
  have hlen : (leaders cfg).length = cfg.logicalSectorsCount := by
    rw [leaders_g1 cfg hg]
    exact List.length_range' _ _ _
  have hsw1 : (sweep cfg erasedFlash).1 = erasedFlash := by
    funext t
    by_cases ht : t ∈ leaders cfg
    · rw [hp t ht]
      unfold sweepPoint
      rw [if_neg (by simp [hchkE t])]
    · exact hf t ht
  have hsw2 : (sweep cfg erasedFlash).2 = cfg.logicalSectorsCount := by
    rw [hc, ← hlen]
    apply List.countP_eq_length.mpr
    intro a ha
    simp [badLeader, hchkE a]
  rw [init_sectors_eq, hsw2, hsw1, if_neg (by omega), List.range_eq_range']
  apply gapFillCold cfg hg hcnt rnd cfg.logicalSectorsCount 0 erasedFlash 0 (by omega) hcpos
  refine ⟨?_, ?_, ?_, ?_, ?_⟩
  · intro s _
    rfl
  · intro s _ hchk
    rw [hchkE s] at hchk
    exact absurd hchk (by simp)
  · intro i hi
    omega
  · intro s _ t _ hcs
    rw [hchkE s] at hcs
    exact absurd hcs (by simp)
  · unfold invCount
    rw [Nat.sub_zero, ← hlen]
    apply List.countP_eq_length.mpr
    intro a _
    simp [hchkE a]

/-- C6: initializing with `lowerBound = 100`, `logicalSectorCount = 10`,
`groupBy = 1` on all-erased flash — for every random stream — makes exactly
the ten physical sectors 100..109 valid: each carries the signature, write
count 1, and a logical id below 10; logical ids are pairwise distinct across
the range; every id `0..10` is placed at some sector of the range (as a full
library-written representative); and every sector outside `[100, 110)` is
still fully erased. -/
theorem cold_boot_allocates_ten (rnd : Nat → Nat) :
    (∀ s, 100 ≤ s → s < 110 →
      check_sector_signature (init_sectors cfgTen rnd erasedFlash) s = true ∧
      ((init_sectors cfgTen rnd erasedFlash) s).writeCount = 1 ∧
      ((init_sectors cfgTen rnd erasedFlash) s).logicalID < 10) ∧
    (∀ s t, 100 ≤ s → s < 110 → 100 ≤ t → t < 110 →
      ((init_sectors cfgTen rnd erasedFlash) s).logicalID
        = ((init_sectors cfgTen rnd erasedFlash) t).logicalID → s = t) ∧
    (∀ i, i < 10 → ∃ s, 100 ≤ s ∧ s < 110 ∧
      (init_sectors cfgTen rnd erasedFlash) s = writtenSector i 1 0) ∧
    (∀ s, s < 100 ∨ 110 ≤ s → (init_sectors cfgTen rnd erasedFlash) s = erasedSector) := by
  have hBase := init_cold_g1 cfgTen rfl (by decide) (by decide) rnd
  have hmem : ∀ s, 100 ≤ s → s < 110 → s ∈ leaders cfgTen := by
    intro s h1 h2
    rw [leaders_g1 cfgTen rfl, List.mem_range'_1]
    refine ⟨h1, ?_⟩
    show s < 100 + 10
    omega
  have hval : ∀ s ∈ leaders cfgTen,
      check_sector_signature (init_sectors cfgTen rnd erasedFlash) s = true := by
    have hz := hBase.invcnt
    rw [Nat.sub_self] at hz
    unfold invCount at hz
    intro s hs
    have hns := List.countP_eq_zero.mp hz s hs
    cases hcc : check_sector_signature (init_sectors cfgTen rnd erasedFlash) s
    · rw [hcc] at hns
      exact absurd (by simp) hns
    · rfl
  refine ⟨?_, ?_, ?_, ?_⟩
  · intro s h1 h2
    have hs := hmem s h1 h2
    have hv := hval s hs
    obtain ⟨i, hi, hw⟩ := hBase.content s hs hv
    rw [hw]
    have h10 : cfgTen.logicalSectorsCount = 10 := rfl
    refine ⟨check_writtenSector _ s i 1 0 hw ▸ hv, rfl, ?_⟩
    simp [writtenSector]
    omega
  · intro s t h1 h2 h3 h4 heq
    exact hBase.inj s (hmem s h1 h2) t (hmem t h3 h4)
      (hval s (hmem s h1 h2)) (hval t (hmem t h3 h4)) heq
  · intro i hi
    obtain ⟨s, hs, hw⟩ := hBase.surj i hi
    have hb := hs
    rw [leaders_g1 cfgTen rfl, List.mem_range'_1] at hb
    exact ⟨s, hb.1, hb.2, hw⟩
  · intro s hout
    apply hBase.outside
    rw [leaders_g1 cfgTen rfl, List.mem_range'_1]
    have hc1 : cfgTen.lowerBound = 100 := rfl
    have hc2 : cfgTen.logicalSectorsCount = 10 := rfl
    intro hin
    rw [hc1, hc2] at hin
    omega

/-- Witness for `cold_boot_allocates_ten` with the random stream `k ↦ k`:
sector 105 becomes valid with write count 1 and small logical id, logical id
3 is placed somewhere in range, and sector 50 stays erased. -/
theorem cold_boot_allocates_ten_witness :
    (check_sector_signature (init_sectors cfgTen (fun k => k) erasedFlash) 105 = true ∧
     ((init_sectors cfgTen (fun k => k) erasedFlash) 105).writeCount = 1 ∧
     ((init_sectors cfgTen (fun k => k) erasedFlash) 105).logicalID < 10) ∧
    (∃ s, 100 ≤ s ∧ s < 110 ∧
      (init_sectors cfgTen (fun k => k) erasedFlash) s = writtenSector 3 1 0) ∧
    (init_sectors cfgTen (fun k => k) erasedFlash) 50 = erasedSector :=
  ⟨(cold_boot_allocates_ten (fun k => k)).1 105 (by decide) (by decide),
   (cold_boot_allocates_ten (fun k => k)).2.2.1 3 (by decide),
   (cold_boot_allocates_ten (fun k => k)).2.2.2 50 (Or.inl (by decide))⟩
